import Mathlib

/-!
Verification of the episode-metadata extractor, name renderer and rename-plan
builders of `interactive_episode_renamer.py` (the `_with_rich` variant contains
byte-identical copies of the functions modelled here).

Strings are modelled as `List Char`.  The four regular expressions of
`extract_episode_info` are embedded as explicit backtracking searches that
enumerate candidate decompositions in exactly Python's `re.search` priority
order: starting positions left to right, a lazy `(.+?)` tried shortest first,
greedy `*` / `?` / `+` tried longest (resp. consuming) first, later choice
points subordinate to earlier ones.  Character classes are modelled at their
ASCII meaning (`\s`, `\d` and `re.IGNORECASE` additionally accept some
non-ASCII characters in Python; no claim depends on non-ASCII input).
-/

/-- Strings of the model: lists of characters. -/
abbrev Str := List Char

/-- Python `\s` (ASCII part): the six whitespace characters. -/
def isPySpace (c : Char) : Bool :=
  c == ' ' || c == '\t' || c == '\n' || c == '\r' || c == '\x0b' || c == '\x0c'

/-- The character class `[\s._-]` used as separator glue in all four patterns. -/
def isSep (c : Char) : Bool :=
  isPySpace c || c == '.' || c == '_' || c == '-'

/-- `S` under `re.IGNORECASE`. -/
def isSChar (c : Char) : Bool := c == 'S' || c == 's'

/-- `E` under `re.IGNORECASE`. -/
def isEChar (c : Char) : Bool := c == 'E' || c == 'e'

/-- `P` under `re.IGNORECASE`. -/
def isPChar (c : Char) : Bool := c == 'P' || c == 'p'

/-- `O` under `re.IGNORECASE`. -/
def isOChar (c : Char) : Bool := c == 'O' || c == 'o'

/-- `F` under `re.IGNORECASE`. -/
def isFChar (c : Char) : Bool := c == 'F' || c == 'f'

/-- The `.` metacharacter: any character except a newline (no `re.DOTALL`). -/
def isDotChar (c : Char) : Bool := !(c == '\n')

/-- First success of `g` over `l`, in order: the backtracking priority search. -/
def firstSome : List α → (α → Option β) → Option β
  | [], _ => none
  | a :: l, g =>
    match g a with
    | some b => some b
    | none => firstSome l g

/-- All suffixes of `s`, leftmost starting position first: the scan order of
`re.search`. -/
def suffs : List Char → List (List Char)
  | [] => [[]]
  | c :: r => (c :: r) :: suffs r

/-- Candidates for the lazy `(.+?)`: nonempty prefixes of non-newline
characters, shortest first, each paired with the remaining suffix. -/
def titleCands (s : List Char) : List (List Char × List Char) :=
  (List.range (s.takeWhile isDotChar).length).map
    (fun i => (s.take (i + 1), s.drop (i + 1)))

/-- Candidates for a greedy `[c]*` over class `p`: the suffixes left after
consuming a run of `p`-characters, longest run first. -/
def starCands (p : Char → Bool) : List Char → List (List Char)
  | [] => [[]]
  | c :: s => if p c then starCands p s ++ [c :: s] else [c :: s]

/-- Candidates for a greedy `X?`: consume the character if possible (tried
first), else leave the input unchanged. -/
def optCands (p : Char → Bool) : List Char → List (List Char)
  | [] => [[]]
  | c :: s => if p c then [s, c :: s] else [c :: s]

/-- A single mandatory character of class `p` (the literal `E`, `o`, `f`). -/
def charCands (p : Char → Bool) : List Char → List (List Char)
  | [] => []
  | c :: s => if p c then [s] else []

/-- Candidates for a greedy capturing `([c]+)`: captured run and remaining
suffix, longest capture first. -/
def plusCands (p : Char → Bool) (s : List Char) : List (List Char × List Char) :=
  let k := (s.takeWhile p).length
  (List.range k).map (fun i => (s.take (k - i), s.drop (k - i)))

/-- Candidates for `(\d{2})`-style exactly-two-character captures. -/
def twoCands (p : Char → Bool) : List Char → List (List Char × List Char)
  | a :: b :: r => if p a && p b then [([a, b], r)] else []
  | _ => []

/-- `re.search(r'(.+?)[\s._-]*S?(\d+)[\s._-]*E?(\d+)', filename, re.IGNORECASE)`:
the winning match's captures `[title, season digits, episode digits]`. -/
def search1 (f : Str) : Option (List Str) :=
  firstSome (suffs f) fun s =>
  firstSome (titleCands s) fun tc =>
  firstSome (starCands isSep tc.2) fun s1 =>
  firstSome (optCands isSChar s1) fun s2 =>
  firstSome (plusCands Char.isDigit s2) fun dc1 =>
  firstSome (starCands isSep dc1.2) fun s3 =>
  firstSome (optCands isEChar s3) fun s4 =>
  firstSome (plusCands Char.isDigit s4) fun dc2 =>
  some [tc.1, dc1.1, dc2.1]

/-- `re.search(r'(.+?)[\s._-]*(\d+)[\s._-]*(\d{2})', filename, re.IGNORECASE)`:
captures `[title, season digits, exactly-two episode digits]`. -/
def search2 (f : Str) : Option (List Str) :=
  firstSome (suffs f) fun s =>
  firstSome (titleCands s) fun tc =>
  firstSome (starCands isSep tc.2) fun s1 =>
  firstSome (plusCands Char.isDigit s1) fun dc1 =>
  firstSome (starCands isSep dc1.2) fun s2 =>
  firstSome (twoCands Char.isDigit s2) fun dc2 =>
  some [tc.1, dc1.1, dc2.1]

/-- `re.search(r'(.+?)[\s._-]*EP?[\s._-]*(\d+)', filename, re.IGNORECASE)`:
captures `[title, episode digits]`. -/
def search3 (f : Str) : Option (List Str) :=
  firstSome (suffs f) fun s =>
  firstSome (titleCands s) fun tc =>
  firstSome (starCands isSep tc.2) fun s1 =>
  firstSome (charCands isEChar s1) fun s2 =>
  firstSome (optCands isPChar s2) fun s3 =>
  firstSome (starCands isSep s3) fun s4 =>
  firstSome (plusCands Char.isDigit s4) fun dc =>
  some [tc.1, dc.1]

/-- `re.search(r'(.+?)[\s._-]*(\d+)[\s._-]*of[\s._-]*\d+', filename, re.IGNORECASE)`:
captures `[title, part number]`; the trailing total count is uncaptured. -/
def search4 (f : Str) : Option (List Str) :=
  firstSome (suffs f) fun s =>
  firstSome (titleCands s) fun tc =>
  firstSome (starCands isSep tc.2) fun s1 =>
  firstSome (plusCands Char.isDigit s1) fun dc1 =>
  firstSome (starCands isSep dc1.2) fun s2 =>
  firstSome (charCands isOChar s2) fun s3 =>
  firstSome (charCands isFChar s3) fun s4 =>
  firstSome (starCands isSep s4) fun s5 =>
  firstSome (plusCands Char.isDigit s5) fun _ =>
  some [tc.1, dc1.1]

/-- Strip characters satisfying `p` from both ends (Python `str.strip`). -/
def stripBoth (p : Char → Bool) (s : List Char) : List Char :=
  ((s.dropWhile p).reverse.dropWhile p).reverse

/-- Python `str.strip()` with no argument: strip whitespace. -/
def pyStrip : List Char → List Char := stripBoth isPySpace

/-- Python `.strip(' ._-')` applied to the captured title. -/
def stripSeps : List Char → List Char :=
  stripBoth (fun c => c == ' ' || c == '.' || c == '_' || c == '-')

/-- `os.path.splitext(filename)[0]` for a bare filename: cut at the last dot,
provided some earlier character of the name is not a dot. -/
def splitextStem (s : List Char) : List Char :=
  match s.reverse.findIdx? (· == '.') with
  | none => s
  | some k =>
    let i := s.length - 1 - k
    if (s.take i).any (· != '.') then s.take i else s

/-- `os.path.splitext(filename)[1]`: everything after the stem. -/
def splitextExt (s : List Char) : List Char :=
  s.drop (splitextStem s).length

/-- The `{title, season, episode}` dictionary built by `extract_episode_info`. -/
structure EpisodeInfo where
  title : Str
  season : Str
  episode : Str
deriving DecidableEq, Repr

/-- The dictionary literal of `extract_episode_info`:
`title = groups[0].strip(' ._-')`,
`season = groups[1] if len(groups) > 1 else '1'`,
`episode = groups[2] if len(groups) > 2 else groups[1]`. -/
def infoFromGroups (groups : List Str) : EpisodeInfo :=
  { title := stripSeps (groups.getD 0 [])
    season := if groups.length > 1 then groups.getD 1 ['1'] else ['1']
    episode := if groups.length > 2 then groups.getD 2 ['1'] else groups.getD 1 ['1'] }

/-- One iteration of the pattern loop: on a match with at least two capture
groups, return the episode info; otherwise fall through to the next pattern. -/
def tryGroups (og : Option (List Str)) : Option EpisodeInfo :=
  match og with
  | some groups => if groups.length ≥ 2 then some (infoFromGroups groups) else none
  | none => none

/-- `extract_episode_info`: try the four patterns in order, first match wins;
with no match, fall back to the whole stem as title and season/episode `"1"`. -/
def extract_episode_info (filename : Str) : EpisodeInfo :=
  match tryGroups (search1 filename) with
  | some info => info
  | none =>
    match tryGroups (search2 filename) with
    | some info => info
    | none =>
      match tryGroups (search3 filename) with
      | some info => info
      | none =>
        match tryGroups (search4 filename) with
        | some info => info
        | none =>
          { title := splitextStem filename, season := ['1'], episode := ['1'] }

/-- The same extractor with the second pattern deleted from the list
(for the dead-rule refinement claim). -/
def extract_no_rule2 (filename : Str) : EpisodeInfo :=
  match tryGroups (search1 filename) with
  | some info => info
  | none =>
    match tryGroups (search3 filename) with
    | some info => info
    | none =>
      match tryGroups (search4 filename) with
      | some info => info
      | none =>
        { title := splitextStem filename, season := ['1'], episode := ['1'] }

/-- Value of a nonempty run of decimal digits. -/
def digitsToNat (s : List Char) : Nat :=
  s.foldl (fun n c => n * 10 + (c.toNat - '0'.toNat)) 0

/-- Shape check for the body of a Python `int()` literal after the optional
sign: nonempty, decimal digits with single underscores allowed only between
digits (PEP 515).  Non-ASCII digits are not modelled. -/
def intBodyValid : List Char → Bool
  | [] => false
  | [c] => c.isDigit
  | c :: d :: r =>
    c.isDigit && (if d = '_' then intBodyValid r else intBodyValid (d :: r))

/-- Value of an `int()` body, or `none` when malformed. -/
def digitsVal (s : List Char) : Option Nat :=
  if intBodyValid s then some (digitsToNat (s.filter (· != '_'))) else none

/-- Python `int(s)` on a string: strip whitespace, optional sign, digit body;
`none` models the `ValueError`. -/
def pyIntParse (s : Str) : Option Int :=
  match pyStrip s with
  | [] => none
  | c :: r =>
    if c = '+' then (digitsVal r).map (fun n => (n : Int))
    else if c = '-' then (digitsVal r).map (fun n => -(n : Int))
    else (digitsVal (c :: r)).map (fun n => (n : Int))

/-- Python `str(v)` for an integer. -/
def intToStr (v : Int) : Str :=
  if v < 0 then '-' :: Nat.toDigits 10 v.natAbs else Nat.toDigits 10 v.toNat

/-- Python `str.zfill(n)`: left-pad with zeros to width `n`, keeping a leading
sign in front of the padding. -/
def zfill (n : Nat) (s : Str) : Str :=
  if n ≤ s.length then s
  else
    match s with
    | [] => List.replicate n '0'
    | c :: rest =>
      if c = '+' || c = '-' then c :: (List.replicate (n - (rest.length + 1)) '0' ++ rest)
      else List.replicate (n - (rest.length + 1)) '0' ++ (c :: rest)

/-- Rendering of an integer under a format spec.  The specs exercised by the
program are supported: empty, `d`, and zero-padded `0<width>d` (rendered as
`str(v).zfill(width)`, matching CPython).  Other specs map to `none`, the
uniform error outcome. -/
def parseIntSpec (spec : Str) (v : Int) : Option Str :=
  if spec = [] then some (intToStr v)
  else if spec = ['d'] then some (intToStr v)
  else
    match spec with
    | '0' :: rest =>
      let w := rest.takeWhile Char.isDigit
      if rest = w ++ ['d'] then some (zfill (digitsToNat w) (intToStr v)) else none
    | _ => none

/-- Substitution of one `str.format` replacement field.  `title` and `season`
are passed as strings (empty spec only), `episode` as an integer.  Any other
field name models the `KeyError`/`IndexError` of `.format` with only these
three keyword arguments. -/
def renderField (title season : Str) (ep : Int) (field : Str) : Option Str :=
  let name := field.takeWhile (fun c => c ≠ ':')
  let spec := field.drop (name.length + 1)
  if name = "title".toList then (if spec = [] then some title else none)
  else if name = "season".toList then (if spec = [] then some season else none)
  else if name = "episode".toList then parseIntSpec spec ep
  else none

/-- Scanner state of `str.format` template parsing: literal text, just after a
`{`, just after a `}`, or inside a replacement field with the accumulated
field text. -/
inductive FmtState where
  | text
  | openB
  | closeB
  | field (acc : Str)

/-- The scan of `str.format`: `{{`/`}}` are escapes, a lone `{` or `}` is an
error, `{...}` is a replacement field.  A `none` result models any exception
raised by `.format` (`ValueError`, `KeyError`, `IndexError`). -/
def fmtGo (title season : Str) (ep : Int) : FmtState → List Char → Option Str
  | .text, [] => some []
  | .text, c :: rest =>
    if c = '{' then fmtGo title season ep .openB rest
    else if c = '}' then fmtGo title season ep .closeB rest
    else (fmtGo title season ep .text rest).map (fun out => c :: out)
  | .openB, [] => none
  | .openB, c :: rest =>
    if c = '{' then (fmtGo title season ep .text rest).map (fun out => '{' :: out)
    else if c = '}' then none
    else fmtGo title season ep (.field [c]) rest
  | .closeB, [] => none
  | .closeB, c :: rest =>
    if c = '}' then (fmtGo title season ep .text rest).map (fun out => '}' :: out)
    else none
  | .field _, [] => none
  | .field acc, c :: rest =>
    if c = '}' then
      match renderField title season ep acc with
      | none => none
      | some v => (fmtGo title season ep .text rest).map (fun out => v ++ out)
    else fmtGo title season ep (.field (acc ++ [c])) rest

/-- `naming_pattern.format(season=season, episode=episode, title=title)`:
`none` models a raised exception. -/
def pyFormat (naming_pattern title season : Str) (ep : Int) : Option Str :=
  fmtGo title season ep .text naming_pattern

/-- The three recognised field names. -/
def knownName (name : Str) : Bool :=
  name == "title".toList || name == "season".toList || name == "episode".toList

/-- Does the template, parsed exactly as `fmtGo` parses it, contain a
replacement field whose name is outside `{title, season, episode}`? -/
def hasUnknownField : FmtState → List Char → Bool
  | .text, [] => false
  | .text, c :: rest =>
    if c = '{' then hasUnknownField .openB rest
    else if c = '}' then hasUnknownField .closeB rest
    else hasUnknownField .text rest
  | .openB, [] => false
  | .openB, c :: rest =>
    if c = '{' then hasUnknownField .text rest
    else if c = '}' then false
    else hasUnknownField (.field [c]) rest
  | .closeB, [] => false
  | .closeB, c :: rest =>
    if c = '}' then hasUnknownField .text rest
    else false
  | .field _, [] => false
  | .field acc, c :: rest =>
    if c = '}' then
      (!knownName (acc.takeWhile (fun x => x ≠ ':'))) || hasUnknownField .text rest
    else hasUnknownField (.field (acc ++ [c])) rest

/-- The class `[<>:"/\\|?*]` of filesystem-unsafe characters. -/
def isUnsafeChar (c : Char) : Bool :=
  c == '<' || c == '>' || c == ':' || c == '"' || c == '/' || c == '\\' ||
    c == '|' || c == '?' || c == '*'

/-- `re.sub(r'[<>:"/\\|?*]', '_', title)`: each unsafe character becomes `_`. -/
def sanitize (s : List Char) : List Char :=
  s.map (fun c => if isUnsafeChar c then '_' else c)

/-- `generate_standard_name`: zero-pad the season to width 2, parse the episode
as an integer, strip and sanitize the title, substitute into the template.
Any exception (`int()` failure or `.format` failure) is caught and the raw
title is returned instead. -/
def generate_standard_name (episode_info : EpisodeInfo) (naming_pattern : Str) : Str :=
  match pyIntParse episode_info.episode with
  | none => episode_info.title
  | some episode =>
    let season := zfill 2 episode_info.season
    let title := sanitize (pyStrip episode_info.title)
    match pyFormat naming_pattern title season episode with
    | none => episode_info.title
    | some out => out

/-- Python dict assignment `m[k] = v` on an insertion-ordered dict. -/
def insertDict (m : List (Str × Str)) (k v : Str) : List (Str × Str) :=
  if m.any (fun p => p.1 == k) then
    m.map (fun p => if p.1 == k then (k, v) else p)
  else m ++ [(k, v)]

/-- The `smart_rename` mapping loop: for each file, extract episode info and
render it with the chosen template, re-appending the original extension.
(The source also stores the extension into the info dict; that key is never
read by `generate_standard_name`.) -/
def smart_mapping (files : List Str) (naming_pattern : Str) : List (Str × Str) :=
  files.foldl
    (fun m name =>
      insertDict m name
        (generate_standard_name (extract_episode_info name) naming_pattern ++ splitextExt name))
    []

/-- One file of the `manual_rename` loop: the entered name is stripped of
whitespace; an empty result skips the file. -/
def manualStep (m : List (Str × Str)) (q : Str × Str) : List (Str × Str) :=
  if pyStrip q.2 = [] then m else insertDict m q.1 (pyStrip q.2)

/-- The `manual_rename` mapping loop over files paired with the entered names. -/
def manual_mapping (files raws : List Str) : List (Str × Str) :=
  (files.zip raws).foldl manualStep []

/-- The `unified_rename` loop: same title and zero-padded season for every
file, episode counter incremented by one per file.  A `.format` exception
aborts the whole loop (`none`): the source does not catch exceptions here. -/
def unified_go (naming_pattern show_name season : Str) :
    List (Str × Str) → Int → List Str → Option (List (Str × Str))
  | m, _, [] => some m
  | m, cur, f :: rest =>
    match pyFormat naming_pattern show_name (zfill 2 season) cur with
    | none => none
    | some base =>
      unified_go naming_pattern show_name season
        (insertDict m f (base ++ splitextExt f)) (cur + 1) rest

/-- `unified_rename`'s mapping: run the loop from the starting episode. -/
def unified_mapping (files : List Str) (show_name season : Str) (start_episode : Int)
    (naming_pattern : Str) : Option (List (Str × Str)) :=
  unified_go naming_pattern show_name season [] start_episode files

/-- Accumulator-free rendition of the `unified_rename` loop, used to state its
input-order specification. -/
def seqRender (naming_pattern show_name season : Str) :
    Int → List Str → Option (List (Str × Str))
  | _, [] => some []
  | cur, f :: rest =>
    match pyFormat naming_pattern show_name (zfill 2 season) cur with
    | none => none
    | some base =>
      (seqRender naming_pattern show_name season (cur + 1) rest).map
        (fun l => (f, base ++ splitextExt f) :: l)

theorem firstSome_eq_some {α β : Type} {l : List α} {g : α → Option β} {b : β}
    (h : firstSome l g = some b) : ∃ a ∈ l, g a = some b := by
  induction l with
  | nil => simp [firstSome] at h
  | cons a l ih =>
    rw [firstSome] at h
    cases hga : g a with
    | some b' =>
      rw [hga] at h
      exact ⟨a, List.mem_cons_self a l, hga.trans h⟩
    | none =>
      rw [hga] at h
      obtain ⟨x, hx, hgx⟩ := ih h
      exact ⟨x, List.mem_cons_of_mem a hx, hgx⟩

theorem firstSome_eq_none {α β : Type} {l : List α} {g : α → Option β}
    (h : firstSome l g = none) : ∀ a ∈ l, g a = none := by
  induction l with
  | nil => simp
  | cons a l ih =>
    rw [firstSome] at h
    cases hga : g a with
    | some b' => rw [hga] at h; exact absurd h (by simp)
    | none =>
      rw [hga] at h
      intro x hx
      rcases List.mem_cons.mp hx with rfl | hx
      · exact hga
      · exact ih h x hx

theorem mem_optCands_self {p : Char → Bool} (s : List Char) : s ∈ optCands p s := by
  cases s with
  | nil => simp [optCands]
  | cons c r =>
    rw [optCands]
    split <;> simp

theorem all_take_of_le_takeWhile {p : Char → Bool} :
    ∀ (s : List Char) (j : Nat), j ≤ (s.takeWhile p).length → ∀ c ∈ s.take j, p c = true := by
  intro s
  induction s with
  | nil => simp
  | cons a r ih =>
    intro j hj c hc
    cases j with
    | zero => simp at hc
    | succ j' =>
      rw [List.takeWhile_cons] at hj
      by_cases hp : p a
      · rw [if_pos hp] at hj
        simp only [List.length_cons, Nat.succ_le_succ_iff] at hj
        rw [List.take_succ_cons] at hc
        rcases List.mem_cons.mp hc with rfl | hc
        · exact hp
        · exact ih j' hj c hc
      · rw [if_neg hp] at hj
        simp at hj

theorem plusCands_mem {p : Char → Bool} {s : List Char} {dc : List Char × List Char}
    (h : dc ∈ plusCands p s) : dc.1 ≠ [] ∧ ∀ c ∈ dc.1, p c = true := by
  unfold plusCands at h
  obtain ⟨i, hi, heq⟩ := List.mem_map.mp h
  rw [List.mem_range] at hi
  have hk : (s.takeWhile p).length ≤ s.length := (List.takeWhile_prefix p).length_le
  constructor
  · intro hnil
    rw [← heq] at hnil
    simp only at hnil
    have := congrArg List.length hnil
    rw [List.length_take] at this
    simp only [List.length_nil] at this
    omega
  · intro c hc
    rw [← heq] at hc
    simp only at hc
    exact all_take_of_le_takeWhile s _ (by omega) c hc

theorem twoCands_mem {p : Char → Bool} {s : List Char} {dc : List Char × List Char}
    (h : dc ∈ twoCands p s) :
    ∃ a b r, s = a :: b :: r ∧ p a = true ∧ p b = true ∧ dc = ([a, b], r) := by
  match s with
  | [] => simp [twoCands] at h
  | [a] => simp [twoCands] at h
  | a :: b :: r =>
    rw [twoCands] at h
    by_cases hab : p a && p b
    · rw [if_pos hab] at h
      rcases Bool.and_eq_true_iff.mp hab with ⟨ha, hb⟩
      exact ⟨a, b, r, rfl, ha, hb, List.mem_singleton.mp h⟩
    · rw [if_neg hab] at h
      simp at h

theorem plusCands_ne_nil {p : Char → Bool} {a : Char} {r : List Char}
    (ha : p a = true) : plusCands p (a :: r) ≠ [] := by
  unfold plusCands
  rw [List.takeWhile_cons, if_pos ha]
  intro hc
  have := congrArg List.length hc
  simp at this

theorem search1_shape {f : Str} {gs : List Str} (h : search1 f = some gs) :
    ∃ t d1 d2, gs = [t, d1, d2] ∧ d1 ≠ [] ∧ (∀ c ∈ d1, Char.isDigit c) ∧
      d2 ≠ [] ∧ (∀ c ∈ d2, Char.isDigit c) := by
  unfold search1 at h
  obtain ⟨s, hs, h⟩ := firstSome_eq_some h
  obtain ⟨tc, htc, h⟩ := firstSome_eq_some h
  obtain ⟨s1, hs1, h⟩ := firstSome_eq_some h
  obtain ⟨s2, hs2, h⟩ := firstSome_eq_some h
  obtain ⟨dc1, hdc1, h⟩ := firstSome_eq_some h
  obtain ⟨s3, hs3, h⟩ := firstSome_eq_some h
  obtain ⟨s4, hs4, h⟩ := firstSome_eq_some h
  obtain ⟨dc2, hdc2, h⟩ := firstSome_eq_some h
  obtain ⟨hne1, hdig1⟩ := plusCands_mem hdc1
  obtain ⟨hne2, hdig2⟩ := plusCands_mem hdc2
  exact ⟨tc.1, dc1.1, dc2.1, (Option.some.injEq _ _ ▸ h).symm, hne1, hdig1, hne2, hdig2⟩

theorem search2_shape {f : Str} {gs : List Str} (h : search2 f = some gs) :
    ∃ t d1 d2, gs = [t, d1, d2] ∧ d1 ≠ [] ∧ (∀ c ∈ d1, Char.isDigit c) ∧
      d2 ≠ [] ∧ (∀ c ∈ d2, Char.isDigit c) := by
  unfold search2 at h
  obtain ⟨s, hs, h⟩ := firstSome_eq_some h
  obtain ⟨tc, htc, h⟩ := firstSome_eq_some h
  obtain ⟨s1, hs1, h⟩ := firstSome_eq_some h
  obtain ⟨dc1, hdc1, h⟩ := firstSome_eq_some h
  obtain ⟨s2, hs2, h⟩ := firstSome_eq_some h
  obtain ⟨dc2, hdc2, h⟩ := firstSome_eq_some h
  obtain ⟨hne1, hdig1⟩ := plusCands_mem hdc1
  obtain ⟨a, b, r, hsr, ha, hb, hdc⟩ := twoCands_mem hdc2
  refine ⟨tc.1, dc1.1, dc2.1, (Option.some.injEq _ _ ▸ h).symm, hne1, hdig1, ?_, ?_⟩
  · rw [hdc]; simp
  · rw [hdc]
    intro c hc
    rcases List.mem_cons.mp hc with rfl | hc
    · exact ha
    · rcases List.mem_singleton.mp hc with rfl
      exact hb

theorem search3_shape {f : Str} {gs : List Str} (h : search3 f = some gs) :
    ∃ t d, gs = [t, d] ∧ d ≠ [] ∧ (∀ c ∈ d, Char.isDigit c) := by
  unfold search3 at h
  obtain ⟨s, hs, h⟩ := firstSome_eq_some h
  obtain ⟨tc, htc, h⟩ := firstSome_eq_some h
  obtain ⟨s1, hs1, h⟩ := firstSome_eq_some h
  obtain ⟨s2, hs2, h⟩ := firstSome_eq_some h
  obtain ⟨s3, hs3, h⟩ := firstSome_eq_some h
  obtain ⟨s4, hs4, h⟩ := firstSome_eq_some h
  obtain ⟨dc, hdc, h⟩ := firstSome_eq_some h
  obtain ⟨hne, hdig⟩ := plusCands_mem hdc
  exact ⟨tc.1, dc.1, (Option.some.injEq _ _ ▸ h).symm, hne, hdig⟩

theorem search4_shape {f : Str} {gs : List Str} (h : search4 f = some gs) :
    ∃ t d, gs = [t, d] ∧ d ≠ [] ∧ (∀ c ∈ d, Char.isDigit c) := by
  unfold search4 at h
  obtain ⟨s, hs, h⟩ := firstSome_eq_some h
  obtain ⟨tc, htc, h⟩ := firstSome_eq_some h
  obtain ⟨s1, hs1, h⟩ := firstSome_eq_some h
  obtain ⟨dc1, hdc1, h⟩ := firstSome_eq_some h
  obtain ⟨s2, hs2, h⟩ := firstSome_eq_some h
  obtain ⟨s3, hs3, h⟩ := firstSome_eq_some h
  obtain ⟨s4, hs4, h⟩ := firstSome_eq_some h
  obtain ⟨s5, hs5, h⟩ := firstSome_eq_some h
  obtain ⟨dc2, hdc2, h⟩ := firstSome_eq_some h
  obtain ⟨hne, hdig⟩ := plusCands_mem hdc1
  exact ⟨tc.1, dc1.1, (Option.some.injEq _ _ ▸ h).symm, hne, hdig⟩

theorem search2_imp_search1 {f : Str} (h : (search2 f).isSome) : (search1 f).isSome := by
  obtain ⟨gs, hgs⟩ := Option.isSome_iff_exists.mp h
  unfold search2 at hgs
  obtain ⟨s, hs, h2⟩ := firstSome_eq_some hgs
  obtain ⟨tc, htc, h2⟩ := firstSome_eq_some h2
  obtain ⟨s1, hs1, h2⟩ := firstSome_eq_some h2
  obtain ⟨dc1, hdc1, h2⟩ := firstSome_eq_some h2
  obtain ⟨s2, hs2, h2⟩ := firstSome_eq_some h2
  obtain ⟨dc2, hdc2, h2⟩ := firstSome_eq_some h2
  obtain ⟨a, b, r, hsr, ha, hb, hdc⟩ := twoCands_mem hdc2
  rw [Option.isSome_iff_exists]
  by_contra hnone
  push_neg at hnone
  have h1 : search1 f = none := Option.eq_none_iff_forall_not_mem.mpr
    (fun x hx => hnone x (Option.mem_def.mp hx))
  unfold search1 at h1
  have H1 := firstSome_eq_none h1 s hs
  have H2 := firstSome_eq_none H1 tc htc
  have H3 := firstSome_eq_none H2 s1 hs1
  have H4 := firstSome_eq_none H3 s1 (mem_optCands_self s1)
  have H5 := firstSome_eq_none H4 dc1 hdc1
  have H6 := firstSome_eq_none H5 s2 hs2
  have H7 := firstSome_eq_none H6 s2 (mem_optCands_self s2)
  have hne : plusCands Char.isDigit s2 ≠ [] := by
    rw [hsr]
    exact plusCands_ne_nil ha
  obtain ⟨x, hx⟩ := List.exists_mem_of_ne_nil _ hne
  have H8 := firstSome_eq_none H7 x hx
  simp at H8

theorem extract_eq_no_rule2 (f : Str) : extract_episode_info f = extract_no_rule2 f := by
  cases h1 : search1 f with
  | some gs =>
    obtain ⟨t, d1, d2, hgs, -, -, -, -⟩ := search1_shape h1
    subst hgs
    simp [extract_episode_info, extract_no_rule2, h1, tryGroups]
  | none =>
    have h2 : search2 f = none := by
      cases h2 : search2 f with
      | none => rfl
      | some gs2 =>
        have := search2_imp_search1 (f := f) (by rw [h2]; rfl)
        rw [h1] at this
        simp at this
    simp [extract_episode_info, extract_no_rule2, h1, h2, tryGroups]

theorem dropWhile_eq_self_of_false {p : Char → Bool} {l : List Char}
    (h : ∀ c ∈ l, p c = false) : l.dropWhile p = l := by
  cases l with
  | nil => rfl
  | cons a r =>
    rw [List.dropWhile_cons, if_neg]
    rw [h a (List.mem_cons_self a r)]
    simp

theorem stripBoth_eq_self {p : Char → Bool} {l : List Char}
    (h : ∀ c ∈ l, p c = false) : stripBoth p l = l := by
  unfold stripBoth
  rw [dropWhile_eq_self_of_false h,
    dropWhile_eq_self_of_false (fun c hc => h c (List.mem_reverse.mp hc)),
    List.reverse_reverse]

theorem isPySpace_eq_false_of_isDigit {c : Char} (hc : c.isDigit = true) :
    isPySpace c = false := by
  by_contra h
  rw [Bool.not_eq_false] at h
  unfold isPySpace at h
  simp only [Bool.or_eq_true, beq_iff_eq] at h
  rcases h with ((((rfl | rfl) | rfl) | rfl) | rfl) | rfl <;> exact absurd hc (by decide)

theorem intBodyValid_of_digits :
    ∀ (d : List Char), d ≠ [] → (∀ c ∈ d, c.isDigit = true) → intBodyValid d = true := by
  intro d
  induction d with
  | nil => intro h; exact absurd rfl h
  | cons a t ih =>
    intro _ hdig
    cases t with
    | nil =>
      have h1 : intBodyValid [a] = a.isDigit := rfl
      rw [h1]
      exact hdig a (List.mem_cons_self a [])
    | cons b r =>
      have hb : b.isDigit = true := hdig b (by simp)
      have hbne : b ≠ '_' := by
        intro hb'
        rw [hb'] at hb
        exact absurd hb (by decide)
      have h1 : intBodyValid (a :: b :: r) =
          (a.isDigit && (if b = '_' then intBodyValid r else intBodyValid (b :: r))) := rfl
      rw [h1, if_neg hbne]
      rw [hdig a (List.mem_cons_self a (b :: r)),
        ih (by simp) (fun c hc => hdig c (List.mem_cons_of_mem a hc))]
      rfl

theorem pyIntParse_digits {d : List Char} (hne : d ≠ []) (hdig : ∀ c ∈ d, c.isDigit = true) :
    pyIntParse d = some ((digitsToNat d : Nat) : Int) := by
  have hstrip : pyStrip d = d :=
    stripBoth_eq_self (fun c hc => isPySpace_eq_false_of_isDigit (hdig c hc))
  obtain ⟨c, r, rfl⟩ : ∃ c r, d = c :: r := by
    cases d with
    | nil => exact absurd rfl hne
    | cons c r => exact ⟨c, r, rfl⟩
  have hcd : c.isDigit = true := hdig c (List.mem_cons_self c r)
  have hcp : c ≠ '+' := by intro h; rw [h] at hcd; exact absurd hcd (by decide)
  have hcm : c ≠ '-' := by intro h; rw [h] at hcd; exact absurd hcd (by decide)
  unfold pyIntParse
  rw [hstrip]
  simp only [if_neg hcp, if_neg hcm]
  have hfil : (c :: r).filter (· != '_') = c :: r := by
    rw [List.filter_eq_self]
    intro a ha
    have : a ≠ '_' := by
      intro h'
      have := hdig a ha
      rw [h'] at this
      exact absurd this (by decide)
    simp [this]
  rw [digitsVal, if_pos (intBodyValid_of_digits _ hne hdig), hfil]
  rfl

theorem insertDict_fresh {m : List (Str × Str)} {k v : Str} (h : ∀ p ∈ m, p.1 ≠ k) :
    insertDict m k v = m ++ [(k, v)] := by
  have hany : m.any (fun p => p.1 == k) = false := by
    rw [List.any_eq_false]
    intro p hp
    simp only [beq_iff_eq]
    exact h p hp
  rw [insertDict, hany]
  simp

theorem foldl_insertDict_val (val : Str → Str) :
    ∀ (files : List Str) (m : List (Str × Str)),
      (∀ f ∈ files, ∀ p ∈ m, p.1 ≠ f) → files.Nodup →
      files.foldl (fun acc name => insertDict acc name (val name)) m =
        m ++ files.map (fun f => (f, val f)) := by
  intro files
  induction files with
  | nil => intro m _ _; simp
  | cons f rest ih =>
    intro m hfresh hnodup
    rw [List.foldl_cons, insertDict_fresh (hfresh f (List.mem_cons_self f rest))]
    rw [List.nodup_cons] at hnodup
    rw [ih (m ++ [(f, val f)]) ?_ hnodup.2]
    · simp
    · intro g hg p hp
      rcases List.mem_append.mp hp with hp | hp
      · exact hfresh g (List.mem_cons_of_mem f hg) p hp
      · rcases List.mem_singleton.mp hp with rfl
        intro hc
        dsimp only at hc
        exact hnodup.1 (by rw [hc]; exact hg)

theorem smart_mapping_eq {files : List Str} (tpl : Str) (h : files.Nodup) :
    smart_mapping files tpl =
      files.map (fun f =>
        (f, generate_standard_name (extract_episode_info f) tpl ++ splitextExt f)) := by
  unfold smart_mapping
  rw [foldl_insertDict_val _ files [] (by simp) h]
  simp

theorem foldl_manualStep (ppairs : List (Str × Str)) :
    ∀ (m : List (Str × Str)),
      (∀ q ∈ ppairs, ∀ p ∈ m, p.1 ≠ q.1) → (ppairs.map Prod.fst).Nodup →
      ppairs.foldl manualStep m =
        m ++ (ppairs.filter (fun q => !(pyStrip q.2 == []))).map
          (fun q => (q.1, pyStrip q.2)) := by
  induction ppairs with
  | nil => intro m _ _; simp
  | cons q rest ih =>
    intro m hfresh hnodup
    rw [List.map_cons, List.nodup_cons] at hnodup
    rw [List.foldl_cons]
    by_cases hq : pyStrip q.2 = []
    · rw [show manualStep m q = m from if_pos hq]
      rw [ih m (fun g hg => hfresh g (List.mem_cons_of_mem q hg)) hnodup.2]
      rw [List.filter_cons_of_neg (by simp [hq])]
    · rw [show manualStep m q = insertDict m q.1 (pyStrip q.2) from if_neg hq]
      rw [insertDict_fresh (hfresh q (List.mem_cons_self q rest))]
      rw [ih (m ++ [(q.1, pyStrip q.2)]) ?_ hnodup.2]
      · rw [List.filter_cons_of_pos (by simp [hq])]
        simp
      · intro g hg p hp
        rcases List.mem_append.mp hp with hp | hp
        · exact hfresh g (List.mem_cons_of_mem q hg) p hp
        · rcases List.mem_singleton.mp hp with rfl
          intro hc
          dsimp only at hc
          exact hnodup.1 (by rw [hc]; exact List.mem_map_of_mem Prod.fst hg)

theorem manual_mapping_eq {files raws : List Str} (hnd : files.Nodup)
    (hlen : files.length = raws.length) :
    manual_mapping files raws =
      ((files.zip raws).filter (fun q => !(pyStrip q.2 == []))).map
        (fun q => (q.1, pyStrip q.2)) := by
  unfold manual_mapping
  rw [foldl_manualStep (files.zip raws) [] (by simp) ?_]
  · simp
  · rw [List.map_fst_zip files raws (le_of_eq hlen)]
    exact hnd

theorem unified_go_eq (tpl t s : Str) :
    ∀ (files : List Str) (m : List (Str × Str)) (cur : Int),
      (∀ f ∈ files, ∀ p ∈ m, p.1 ≠ f) → files.Nodup →
      unified_go tpl t s m cur files = (seqRender tpl t s cur files).map (fun l => m ++ l) := by
  intro files
  induction files with
  | nil => intro m cur _ _; simp [unified_go, seqRender]
  | cons f rest ih =>
    intro m cur hfresh hnodup
    rw [List.nodup_cons] at hnodup
    cases hpf : pyFormat tpl t (zfill 2 s) cur with
    | none => simp only [unified_go, seqRender, hpf, Option.map_none']
    | some base =>
      simp only [unified_go, seqRender, hpf]
      rw [insertDict_fresh (hfresh f (List.mem_cons_self f rest))]
      rw [ih (m ++ [(f, base ++ splitextExt f)]) (cur + 1) ?_ hnodup.2]
      · cases hseq : seqRender tpl t s (cur + 1) rest with
        | none => rfl
        | some l => simp
      · intro g hg p hp
        rcases List.mem_append.mp hp with hp | hp
        · exact hfresh g (List.mem_cons_of_mem f hg) p hp
        · rcases List.mem_singleton.mp hp with rfl
          intro hc
          dsimp only at hc
          exact hnodup.1 (by rw [hc]; exact hg)

theorem seqRender_spec (tpl t s : Str) :
    ∀ (files : List Str) (cur : Int) (l : List (Str × Str)),
      seqRender tpl t s cur files = some l →
      l.length = files.length ∧
      ∀ (i : Nat) (f : Str), files[i]? = some f →
        ∃ base, pyFormat tpl t (zfill 2 s) (cur + i) = some base ∧
          l[i]? = some (f, base ++ splitextExt f) := by
  intro files
  induction files with
  | nil =>
    intro cur l h
    rw [seqRender] at h
    obtain rfl : ([] : List (Str × Str)) = l := Option.some.injEq _ _ ▸ h
    exact ⟨rfl, fun i f hf => by simp at hf⟩
  | cons f rest ih =>
    intro cur l h
    cases hpf : pyFormat tpl t (zfill 2 s) cur with
    | none => rw [seqRender, hpf] at h; exact absurd h (by simp)
    | some base =>
      cases hseq : seqRender tpl t s (cur + 1) rest with
      | none =>
        rw [seqRender, hpf, hseq] at h
        exact absurd h (by simp)
      | some l' =>
        rw [seqRender, hpf, hseq] at h
        simp only [Option.map_some', Option.some.injEq] at h
        obtain ⟨hlen, hspec⟩ := ih (cur + 1) l' hseq
        subst h
        constructor
        · simp [hlen]
        · intro i g hg
          cases i with
          | zero =>
            simp only [List.getElem?_cons_zero, Option.some.injEq] at hg
            subst hg
            refine ⟨base, ?_, by simp⟩
            simpa using hpf
          | succ j =>
            rw [List.getElem?_cons_succ] at hg
            obtain ⟨b, hb, hl⟩ := hspec j g hg
            refine ⟨b, ?_, by simpa using hl⟩
            have harith : cur + (↑(j + 1) : Int) = cur + 1 + ↑j := by push_cast; ring
            rw [harith]
            exact hb

theorem renderField_eq_none_of_unknown {t s : Str} {e : Int} {field : Str}
    (h : knownName (field.takeWhile (fun x => x ≠ ':')) = false) :
    renderField t s e field = none := by
  unfold knownName at h
  simp only [Bool.or_eq_false_iff, beq_eq_false_iff_ne, ne_eq] at h
  obtain ⟨⟨h1, h2⟩, h3⟩ := h
  simp only [renderField]
  rw [if_neg h1, if_neg h2, if_neg h3]

theorem fmtGo_eq_none_of_unknown (t s : Str) (e : Int) :
    ∀ (n : Nat) (tpl : List Char) (st : FmtState), tpl.length ≤ n →
      hasUnknownField st tpl = true → fmtGo t s e st tpl = none := by
  intro n
  induction n with
  | zero =>
    intro tpl st hlen hu
    obtain rfl : tpl = [] := List.eq_nil_of_length_eq_zero (Nat.le_zero.mp hlen)
    cases st <;> simp [hasUnknownField] at hu
  | succ n ih =>
    intro tpl st hlen hu
    cases tpl with
    | nil => cases st <;> simp [hasUnknownField] at hu
    | cons c rest =>
      simp only [List.length_cons, Nat.succ_le_succ_iff] at hlen
      cases st with
      | text =>
        rw [hasUnknownField] at hu
        rw [fmtGo]
        by_cases h1 : c = '{'
        · rw [if_pos h1] at hu ⊢
          exact ih rest .openB hlen hu
        · rw [if_neg h1] at hu ⊢
          by_cases h2 : c = '}'
          · rw [if_pos h2] at hu ⊢
            exact ih rest .closeB hlen hu
          · rw [if_neg h2] at hu ⊢
            rw [ih rest .text hlen hu]
            rfl
      | openB =>
        rw [hasUnknownField] at hu
        rw [fmtGo]
        by_cases h1 : c = '{'
        · rw [if_pos h1] at hu ⊢
          rw [ih rest .text hlen hu]
          rfl
        · rw [if_neg h1] at hu ⊢
          by_cases h2 : c = '}'
          · rw [if_pos h2] at hu
            simp at hu
          · rw [if_neg h2] at hu ⊢
            exact ih rest (.field [c]) hlen hu
      | closeB =>
        rw [hasUnknownField] at hu
        rw [fmtGo]
        by_cases h1 : c = '}'
        · rw [if_pos h1] at hu ⊢
          rw [ih rest .text hlen hu]
          rfl
        · rw [if_neg h1] at hu
          simp at hu
      | field acc =>
        rw [hasUnknownField] at hu
        rw [fmtGo]
        by_cases h1 : c = '}'
        · rw [if_pos h1] at hu ⊢
          rcases Bool.or_eq_true_iff.mp hu with hun | hrest
          · rw [renderField_eq_none_of_unknown (by simpa using hun)]
          · cases hr : renderField t s e acc with
            | none => rfl
            | some v =>
              rw [ih rest .text hlen hrest]
              rfl
        · rw [if_neg h1] at hu ⊢
          exact ih rest (.field (acc ++ [c])) hlen hu

theorem pyFormat_eq_none_of_unknown {tpl t s : Str} {e : Int}
    (h : hasUnknownField .text tpl = true) : pyFormat tpl t s e = none :=
  fmtGo_eq_none_of_unknown t s e tpl.length tpl FmtState.text (Nat.le_refl _) h

theorem generate_eq_getD (info : EpisodeInfo) (tpl : Str) (ep : Int)
    (hep : pyIntParse info.episode = some ep) :
    generate_standard_name info tpl =
      (pyFormat tpl (sanitize (pyStrip info.title)) (zfill 2 info.season) ep).getD
        info.title := by
  unfold generate_standard_name
  rw [hep]
  cases hpf : pyFormat tpl (sanitize (pyStrip info.title)) (zfill 2 info.season) ep <;>
    simp [hpf]

/-- C1: `extract_episode_info` is total (a total function in this model, so it
never raises), and when none of the four patterns matches the filename it
returns the stem of the filename as title with season and episode `"1"`. -/
theorem c1_extract_fallback (f : Str)
    (h1 : search1 f = none) (h2 : search2 f = none)
    (h3 : search3 f = none) (h4 : search4 f = none) :
    extract_episode_info f =
      { title := splitextStem f, season := ['1'], episode := ['1'] } := by
  simp [extract_episode_info, h1, h2, h3, h4, tryGroups]

/-- Witness for C1 at `"RandomName.mp4"`: no pattern matches and the result is
`{title = "RandomName", season = "1", episode = "1"}`. -/
theorem c1_extract_fallback_witness :
    search1 ("RandomName.mp4".toList) = none ∧ search2 ("RandomName.mp4".toList) = none ∧
    search3 ("RandomName.mp4".toList) = none ∧ search4 ("RandomName.mp4".toList) = none ∧
    extract_episode_info ("RandomName.mp4".toList) =
      { title := "RandomName".toList, season := "1".toList, episode := "1".toList } :=
  ⟨by decide, by decide, by decide, by decide,
    (c1_extract_fallback _ (by decide) (by decide) (by decide) (by decide)).trans (by decide)⟩

/-- C2: the four patterns are tried in their fixed order and the first match
determines the result; once an earlier pattern matches, the result is the
info built from its capture groups regardless of the later patterns. -/
theorem c2_first_match_wins (f : Str) :
    (∀ gs, search1 f = some gs → extract_episode_info f = infoFromGroups gs) ∧
    (search1 f = none → ∀ gs, search2 f = some gs →
      extract_episode_info f = infoFromGroups gs) ∧
    (search1 f = none → search2 f = none → ∀ gs, search3 f = some gs →
      extract_episode_info f = infoFromGroups gs) ∧
    (search1 f = none → search2 f = none → search3 f = none → ∀ gs, search4 f = some gs →
      extract_episode_info f = infoFromGroups gs) := by
  refine ⟨?_, ?_, ?_, ?_⟩
  · intro gs h
    obtain ⟨t, d1, d2, rfl, -, -, -, -⟩ := search1_shape h
    simp [extract_episode_info, h, tryGroups]
  · intro h1 gs h
    obtain ⟨t, d1, d2, rfl, -, -, -, -⟩ := search2_shape h
    simp [extract_episode_info, h1, h, tryGroups]
  · intro h1 h2 gs h
    obtain ⟨t, d, rfl, -, -⟩ := search3_shape h
    simp [extract_episode_info, h1, h2, h, tryGroups]
  · intro h1 h2 h3 gs h
    obtain ⟨t, d, rfl, -, -⟩ := search4_shape h
    simp [extract_episode_info, h1, h2, h3, h, tryGroups]

/-- Witness for C2 at `"Show.S01E02.mkv"`: pattern 1 matches with captures
`["Show", "01", "02"]` and the extractor returns exactly its info. -/
theorem c2_first_match_wins_witness :
    search1 ("Show.S01E02.mkv".toList) =
      some ["Show".toList, "01".toList, "02".toList] ∧
    extract_episode_info ("Show.S01E02.mkv".toList) =
      infoFromGroups ["Show".toList, "01".toList, "02".toList] :=
  ⟨by decide, (c2_first_match_wins _).1 _ (by decide)⟩

/-- Counterexample to C3: for `"Show EP5.mkv"` (matched by rule 3) the code
returns season `"5"`, not the claimed `"1"`: `groups[1] if len(groups) > 1`
assigns the single numeric capture to the season as well. -/
theorem c3_counterexample :
    (extract_episode_info ("Show EP5.mkv".toList)).season = "5".toList ∧
    "5".toList ≠ "1".toList ∧
    (extract_episode_info ("Show EP5.mkv".toList)).episode = "5".toList :=
  ⟨by decide, by decide, by decide⟩

/-- C3 amended: when only rules 3 or 4 match (two capture groups), the single
numeric capture is assigned to BOTH season and episode; season is not
defaulted to `"1"`. -/
theorem c3_amended (f : Str) (gs : List Str)
    (h1 : search1 f = none) (h2 : search2 f = none) :
    (search3 f = some gs →
      extract_episode_info f =
        { title := stripSeps (gs.getD 0 []), season := gs.getD 1 ['1'],
          episode := gs.getD 1 ['1'] }) ∧
    (search3 f = none → search4 f = some gs →
      extract_episode_info f =
        { title := stripSeps (gs.getD 0 []), season := gs.getD 1 ['1'],
          episode := gs.getD 1 ['1'] }) := by
  constructor
  · intro h3
    obtain ⟨t, d, rfl, -, -⟩ := search3_shape h3
    simp [extract_episode_info, h1, h2, h3, tryGroups, infoFromGroups]
  · intro h3 h4
    obtain ⟨t, d, rfl, -, -⟩ := search4_shape h4
    simp [extract_episode_info, h1, h2, h3, h4, tryGroups, infoFromGroups]

/-- Witness for the amended C3 at `"Show EP5.mkv"`: rule 3 matches with
captures `["Show", "5"]` and both season and episode become `"5"`. -/
theorem c3_amended_witness :
    search3 ("Show EP5.mkv".toList) = some ["Show".toList, "5".toList] ∧
    extract_episode_info ("Show EP5.mkv".toList) =
      { title := "Show".toList, season := "5".toList, episode := "5".toList } :=
  ⟨by decide,
    ((c3_amended ("Show EP5.mkv".toList) ["Show".toList, "5".toList]
      (by decide) (by decide)).1 (by decide)).trans (by decide)⟩

/-- Counterexample to C4: the sequential (unified) strategy does not sanitize
the user-supplied title; `<` survives into the plan entry unchanged. -/
theorem c4_counterexample :
    unified_mapping ["x.mkv".toList] ("A<B".toList) ("1".toList) 5
        ("{title}.S{season}E{episode:02d}".toList) =
      some [("x.mkv".toList, "A<B.S01E05.mkv".toList)] ∧
    '<' ∈ "A<B.S01E05.mkv".toList ∧ '<' ∈ "A<B".toList :=
  ⟨by decide, by decide, by decide⟩

/-- C4 amended: sanitization replaces exactly the characters of the unsafe
class by `_` position by position and alters nothing else; the smart path
substitutes the sanitized (whitespace-stripped) title into the template,
while the sequential path substitutes the user-supplied title verbatim. -/
theorem c4_amended :
    (∀ s : Str, (sanitize s).length = s.length ∧
      ∀ (i : Nat) (c : Char), s[i]? = some c →
        (sanitize s)[i]? = some (if isUnsafeChar c then '_' else c)) ∧
    (∀ (info : EpisodeInfo) (tpl : Str) (ep : Int), pyIntParse info.episode = some ep →
      generate_standard_name info tpl =
        (pyFormat tpl (sanitize (pyStrip info.title)) (zfill 2 info.season) ep).getD
          info.title) ∧
    (∀ (f t s : Str) (e : Int) (tpl : Str),
      unified_mapping [f] t s e tpl =
        (pyFormat tpl t (zfill 2 s) e).map (fun b => [(f, b ++ splitextExt f)])) := by
  refine ⟨?_, ?_, ?_⟩
  · intro s
    refine ⟨by simp [sanitize], ?_⟩
    intro i c hc
    simp [sanitize, List.getElem?_map, hc]
  · intro info tpl ep hep
    exact generate_eq_getD info tpl ep hep
  · intro f t s e tpl
    cases hpf : pyFormat tpl t (zfill 2 s) e with
    | none => simp [unified_mapping, unified_go, hpf]
    | some b => simp [unified_mapping, unified_go, hpf, insertDict]

/-- Witness for the amended C4: sanitization preserves length, and the smart
renderer turns title `"A<B"` into `"A_B"` under the `{title}` template. -/
theorem c4_amended_witness :
    (sanitize ("a<b".toList)).length = ("a<b".toList).length ∧
    pyIntParse ("3".toList) = some 3 ∧
    generate_standard_name
        { title := "A<B".toList, season := "1".toList, episode := "3".toList }
        ("{title}".toList) = "A_B".toList :=
  ⟨(c4_amended.1 _).1, by decide, (c4_amended.2.1 _ _ 3 (by decide)).trans (by decide)⟩

/-- C5: `generate_standard_name` never propagates an error: if the template
references a placeholder outside `{title, season, episode}` or the episode is
not parseable as an integer, it returns the raw title; consequently the smart
plan-building loop always produces one entry per (distinct) input file. -/
theorem c5_render_fallback :
    (∀ (info : EpisodeInfo) (tpl : Str),
      (hasUnknownField .text tpl = true ∨ pyIntParse info.episode = none) →
      generate_standard_name info tpl = info.title) ∧
    (∀ (files : List Str) (tpl : Str), files.Nodup →
      (smart_mapping files tpl).length = files.length) := by
  constructor
  · intro info tpl h
    rcases h with h | h
    · cases hep : pyIntParse info.episode with
      | none => simp [generate_standard_name, hep]
      | some ep => simp [generate_standard_name, hep, pyFormat_eq_none_of_unknown h]
    · simp [generate_standard_name, h]
  · intro files tpl h
    rw [smart_mapping_eq tpl h]
    simp

/-- Witness for C5: the template `"{bogus}"` references an unknown placeholder,
the renderer returns the raw title `"T"`, and a two-file smart plan still has
two entries. -/
theorem c5_render_fallback_witness :
    hasUnknownField .text ("{bogus}".toList) = true ∧
    generate_standard_name
        { title := "T".toList, season := "1".toList, episode := "1".toList }
        ("{bogus}".toList) = "T".toList ∧
    (smart_mapping ["a.mkv".toList, "b.mkv".toList] ("{bogus}".toList)).length = 2 :=
  ⟨by decide, c5_render_fallback.1 _ _ (Or.inl (by decide)),
    (c5_render_fallback.2 ["a.mkv".toList, "b.mkv".toList] _ (by decide)).trans (by decide)⟩

/-- Counterexample to C6: under the template `"{title} E{episode}"` (no format
spec on the episode), episode `"3"` renders as `"3"`, not as the claimed
zero-padded `"03"`: there is no default width for the episode. -/
theorem c6_counterexample :
    generate_standard_name
        { title := "A".toList, season := "1".toList, episode := "3".toList }
        ("{title} E{episode}".toList) = "A E3".toList ∧
    "A E3".toList ≠ "A E03".toList :=
  ⟨by decide, by decide⟩

/-- C6 amended: with a spec-less `{episode}` placeholder the episode integer is
rendered unpadded (`str(episode)`); zero-padding only happens when the
template itself carries an explicit `0<width>d` spec (as the presets do). -/
theorem c6_amended (info : EpisodeInfo) (ep : Int)
    (hep : pyIntParse info.episode = some ep) :
    generate_standard_name info ("{title} E{episode}".toList) =
      sanitize (pyStrip info.title) ++ (' ' :: 'E' :: intToStr ep) := by
  have hpf : pyFormat ("{title} E{episode}".toList) (sanitize (pyStrip info.title))
      (zfill 2 info.season) ep =
      some (sanitize (pyStrip info.title) ++ (' ' :: 'E' :: (intToStr ep ++ []))) := rfl
  rw [generate_eq_getD info ("{title} E{episode}".toList) ep hep, hpf]
  simp

/-- Witness for the amended C6: episode `"3"` under `"{title} E{episode}"`
renders as `"A E3"`. -/
theorem c6_amended_witness :
    pyIntParse ("3".toList) = some 3 ∧
    generate_standard_name
        { title := "A".toList, season := "1".toList, episode := "3".toList }
        ("{title} E{episode}".toList) = "A E3".toList :=
  ⟨by decide,
    (c6_amended { title := "A".toList, season := "1".toList, episode := "3".toList } 3
      (by decide)).trans (by decide)⟩

/-- C7: for distinct input files the sequential (unified) strategy produces,
in input order, one entry per file; entry `i` carries the same title and
zero-padded season and the episode integer `e + i`, with the file's own
extension re-appended. -/
theorem c7_sequential (files : List Str) (t s : Str) (e : Int) (tpl : Str)
    (plan : List (Str × Str)) (hnd : files.Nodup) (_hne : files ≠ [])
    (h : unified_mapping files t s e tpl = some plan) :
    plan.length = files.length ∧
    ∀ (i : Nat) (f : Str), files[i]? = some f →
      ∃ base, pyFormat tpl t (zfill 2 s) (e + i) = some base ∧
        plan[i]? = some (f, base ++ splitextExt f) := by
  unfold unified_mapping at h
  rw [unified_go_eq tpl t s files [] e (by simp) hnd] at h
  cases hseq : seqRender tpl t s e files with
  | none => rw [hseq] at h; exact absurd h (by simp)
  | some l =>
    rw [hseq] at h
    simp only [Option.map_some', Option.some.injEq, List.nil_append] at h
    subst h
    exact seqRender_spec tpl t s files e l hseq

/-- Witness for C7: three files with start episode 5 receive episodes 5, 6, 7
in input order, with identical title and season. -/
theorem c7_sequential_witness :
    unified_mapping ["a.mkv".toList, "b.mkv".toList, "c.mkv".toList]
        ("T".toList) ("1".toList) 5 ("{title}.S{season}E{episode:02d}".toList) =
      some [("a.mkv".toList, "T.S01E05.mkv".toList),
            ("b.mkv".toList, "T.S01E06.mkv".toList),
            ("c.mkv".toList, "T.S01E07.mkv".toList)] ∧
    [("a.mkv".toList, "T.S01E05.mkv".toList),
     ("b.mkv".toList, "T.S01E06.mkv".toList),
     ("c.mkv".toList, "T.S01E07.mkv".toList)].length = 3 := by
  refine ⟨by decide, ?_⟩
  have h := c7_sequential ["a.mkv".toList, "b.mkv".toList, "c.mkv".toList]
    ("T".toList) ("1".toList) 5 ("{title}.S{season}E{episode:02d}".toList)
    [("a.mkv".toList, "T.S01E05.mkv".toList),
     ("b.mkv".toList, "T.S01E06.mkv".toList),
     ("c.mkv".toList, "T.S01E07.mkv".toList)]
    (by decide) (by decide) (by decide)
  exact h.1.trans (by decide)

theorem nodup_keys_eq {α β : Type} :
    ∀ (l : List (α × β)), (l.map Prod.fst).Nodup →
      ∀ p ∈ l, ∀ q ∈ l, p.1 = q.1 → p = q := by
  intro l
  induction l with
  | nil => intro _ p hp; simp at hp
  | cons a t ih =>
    intro hnd p hp q hq heq
    rw [List.map_cons, List.nodup_cons] at hnd
    rcases List.mem_cons.mp hp with hpa | hp <;> rcases List.mem_cons.mp hq with hqa | hq
    · rw [hpa, hqa]
    · have hkey : a.1 = q.1 := by rw [← hpa]; exact heq
      exact absurd (by rw [hkey]; exact List.mem_map_of_mem Prod.fst hq) hnd.1
    · have hkey : a.1 = p.1 := by rw [← hqa]; exact heq.symm
      exact absurd (by rw [hkey]; exact List.mem_map_of_mem Prod.fst hp) hnd.1
    · exact ih hnd.2 p hp q hq heq

/-- Counterexample to C8: the manual strategy strips the entered name first, so
the whitespace-only (hence non-empty) supplied name `" "` is also skipped:
with supplied names `["x", " "]` for two files the plan has one entry, and the
file with the non-empty supplied name `" "` is absent. -/
theorem c8_counterexample :
    manual_mapping ["a.mkv".toList, "b.mkv".toList] ["x".toList, " ".toList] =
      [("a.mkv".toList, "x".toList)] ∧
    " ".toList ≠ ([] : List Char) ∧
    (manual_mapping ["a.mkv".toList, "b.mkv".toList] ["x".toList, " ".toList]).length ≠ 2 :=
  ⟨by decide, by decide, by decide⟩

/-- C8 amended: the manual plan consists, in input order, of exactly the files
whose supplied new name is non-empty AFTER stripping whitespace, mapped to the
stripped name; a file is in the plan iff its stripped supplied name is
non-empty (so empty and whitespace-only inputs are skipped, and one skipped
input among N distinct files leaves N-1 entries). -/
theorem c8_amended (files raws : List Str) (hnd : files.Nodup)
    (hlen : files.length = raws.length) :
    manual_mapping files raws =
      ((files.zip raws).filter (fun q => !(pyStrip q.2 == []))).map
        (fun q => (q.1, pyStrip q.2)) ∧
    ∀ q ∈ files.zip raws,
      ((∃ v, (q.1, v) ∈ manual_mapping files raws) ↔ pyStrip q.2 ≠ []) := by
  have hkeys : ((files.zip raws).map Prod.fst).Nodup := by
    rw [List.map_fst_zip files raws (le_of_eq hlen)]
    exact hnd
  refine ⟨manual_mapping_eq hnd hlen, ?_⟩
  intro q hq
  constructor
  · rintro ⟨v, hv⟩
    rw [manual_mapping_eq hnd hlen] at hv
    obtain ⟨q', hq', heq⟩ := List.mem_map.mp hv
    obtain ⟨hqz, hcond⟩ := List.mem_filter.mp hq'
    rw [Prod.mk.injEq] at heq
    have hfst : q'.1 = q.1 := heq.1
    have : q' = q := nodup_keys_eq _ hkeys q' hqz q hq hfst
    subst this
    simpa using hcond
  · intro hne
    refine ⟨pyStrip q.2, ?_⟩
    rw [manual_mapping_eq hnd hlen]
    exact List.mem_map_of_mem _ (List.mem_filter.mpr ⟨hq, by simpa using hne⟩)

/-- Witness for the amended C8: three distinct files with supplied names
`["x", "", "y"]` yield the two-entry plan `[(a, x), (c, y)]`. -/
theorem c8_amended_witness :
    manual_mapping ["a.mkv".toList, "b.mkv".toList, "c.mkv".toList]
        ["x".toList, "".toList, "y".toList] =
      [("a.mkv".toList, "x".toList), ("c.mkv".toList, "y".toList)] :=
  ((c8_amended ["a.mkv".toList, "b.mkv".toList, "c.mkv".toList]
    ["x".toList, "".toList, "y".toList] (by decide) (by decide)).1).trans (by decide)

/-- Counterexample to C9: for the filename `"-12.mkv"` pattern 1 captures the
title `"-"`, which strips to the empty string: the extracted title is empty
even after trimming, violating the claimed invariant. -/
theorem c9_counterexample :
    (extract_episode_info ("-12.mkv".toList)).title = ([] : List Char) ∧
    stripSeps (extract_episode_info ("-12.mkv".toList)).title = ([] : List Char) ∧
    (extract_episode_info ("-12.mkv".toList)).episode = "2".toList :=
  ⟨by decide, by decide, by decide⟩

/-- C9 amended: the episode part of the invariant holds: for every filename
the extracted episode parses as a non-negative integer (it is either a
captured digit run or the fallback `"1"`).  The title part of the original
claim is false (see the counterexample): the title can be empty. -/
theorem c9_amended (f : Str) :
    ∃ n : Nat, pyIntParse (extract_episode_info f).episode = some (n : Int) := by
  cases h1 : search1 f with
  | some gs =>
    obtain ⟨t, d1, d2, rfl, -, -, hne2, hdig2⟩ := search1_shape h1
    refine ⟨digitsToNat d2, ?_⟩
    have hepi : (extract_episode_info f).episode = d2 := by
      simp [extract_episode_info, h1, tryGroups, infoFromGroups]
    rw [hepi]
    exact pyIntParse_digits hne2 hdig2
  | none =>
    cases h2 : search2 f with
    | some gs =>
      obtain ⟨t, d1, d2, rfl, -, -, hne2, hdig2⟩ := search2_shape h2
      refine ⟨digitsToNat d2, ?_⟩
      have hepi : (extract_episode_info f).episode = d2 := by
        simp [extract_episode_info, h1, h2, tryGroups, infoFromGroups]
      rw [hepi]
      exact pyIntParse_digits hne2 hdig2
    | none =>
      cases h3 : search3 f with
      | some gs =>
        obtain ⟨t, d, rfl, hne3, hdig3⟩ := search3_shape h3
        refine ⟨digitsToNat d, ?_⟩
        have hepi : (extract_episode_info f).episode = d := by
          simp [extract_episode_info, h1, h2, h3, tryGroups, infoFromGroups]
        rw [hepi]
        exact pyIntParse_digits hne3 hdig3
      | none =>
        cases h4 : search4 f with
        | some gs =>
          obtain ⟨t, d, rfl, hne4, hdig4⟩ := search4_shape h4
          refine ⟨digitsToNat d, ?_⟩
          have hepi : (extract_episode_info f).episode = d := by
            simp [extract_episode_info, h1, h2, h3, h4, tryGroups, infoFromGroups]
          rw [hepi]
          exact pyIntParse_digits hne4 hdig4
        | none =>
          refine ⟨1, ?_⟩
          have hepi : (extract_episode_info f).episode = ['1'] := by
            simp [extract_episode_info, h1, h2, h3, h4, tryGroups]
          rw [hepi]
          decide

/-- C10: whenever pattern 2 matches a filename, pattern 1 matches it as well
(pattern 1 is strictly more permissive), and therefore the extractor is
extensionally equal to the extractor with rule 2 removed: rule 2 never
determines the result. -/
theorem c10_rule2_dead (f : Str) :
    ((search2 f).isSome → (search1 f).isSome) ∧
    extract_episode_info f = extract_no_rule2 f :=
  ⟨search2_imp_search1, extract_eq_no_rule2 f⟩

/-- Witness for C10 at `"T 1 02"`: pattern 2 matches, so pattern 1 does too,
and the two extractors agree. -/
theorem c10_rule2_dead_witness :
    (search1 ("T 1 02".toList)).isSome ∧
    extract_episode_info ("T 1 02".toList) = extract_no_rule2 ("T 1 02".toList) :=
  ⟨(c10_rule2_dead _).1 (by decide), (c10_rule2_dead _).2⟩
